import Mathlib

/-!
# License plate recognition: alphabet table, sequence decoder, inference cycle

Shallow embedding of `dynamic_vino_lib/inferences/license_plate_detection.hpp`.

The header defines the result class `LicensePlateDetectionResult` (with its
`license_` member and `getLicense`) and the compiled-in alphabet table
`LicensePlateDetection::licenses_`; both are transcribed literally.  The
bodies of `enqueue`, `submitRequest`, `fetchResults`, `getResultsLength` and
`getLocationResult` are only declared in the header, so they are modelled
from the specification and marked as such.
-/

namespace dynamic_vino_lib

/-! ## Data model -/

/-- The rectangle type `cv::Rect`: origin and extent in source-frame coordinates. -/
structure Rect where
  x : Int
  y : Int
  width : Int
  height : Int
deriving DecidableEq

/-- Class `LicensePlateDetectionResult`: the location held by the `Result` base
class, and the private member `std::string license_ = ""`. -/
structure LicensePlateDetectionResult where
  location : Rect
  license_ : String := ""
deriving DecidableEq

namespace LicensePlateDetectionResult

/-- Modelled from the spec: the constructor `LicensePlateDetectionResult(const cv::Rect &)`
is declared in the header and defined elsewhere; it stores the origin rectangle
and leaves `license_` at its default member initializer. -/
def ctor (location : Rect) : LicensePlateDetectionResult :=
  { location := location }

/-- The accessor `getLicense() const { return license_; }`. -/
def getLicense (r : LicensePlateDetectionResult) : String :=
  r.license_

end LicensePlateDetectionResult

/-- The member `const std::vector<std::string> licenses_` of `LicensePlateDetection`,
token for token, in source order. -/
def licenses_ : List String := [
    "0", "1", "2", "3", "4", "5", "6", "7", "8", "9",
    "<Anhui>", "<Beijing>", "<Chongqing>", "<Fujian>",
    "<Gansu>", "<Guangdong>", "<Guangxi>", "<Guizhou>",
    "<Hainan>", "<Hebei>", "<Heilongjiang>", "<Henan>",
    "<HongKong>", "<Hubei>", "<Hunan>", "<InnerMongolia>",
    "<Jiangsu>", "<Jiangxi>", "<Jilin>", "<Liaoning>",
    "<Macau>", "<Ningxia>", "<Qinghai>", "<Shaanxi>",
    "<Shandong>", "<Shanghai>", "<Shanxi>", "<Sichuan>",
    "<Tianjin>", "<Tibet>", "<Xinjiang>", "<Yunnan>",
    "<Zhejiang>", "<police>",
    "A", "B", "C", "D", "E", "F", "G", "H", "I", "J",
    "K", "L", "M", "N", "O", "P", "Q", "R", "S", "T",
    "U", "V", "W", "X", "Y", "Z"
  ]

/-! ## Sequence decoder -/

/-- The decode failure of the Sequence Decoder: a class index outside the alphabet. -/
inductive DecodeError where
  | outOfRange (idx : Int)
deriving DecidableEq

/-- Modelled from the spec: the alphabet lookup of the Sequence Decoder (the body of
`fetchResults` is not in the header).  A raw class index resolves to the token
at that position of `licenses_`; an index that is no position of the table does
not resolve. -/
def lookup (idx : Int) : Option String :=
  if 0 ≤ idx then licenses_[idx.toNat]? else none

/-- Modelled from the spec: steps 1 to 3 of the Sequence Decoder (the body of
`fetchResults` is not in the header).  Positions are consumed in order; the
reserved blank marker stops consumption, any other index is looked up in the
alphabet and its token is appended to the accumulated string without a
separator; an index that does not resolve is a decode error. -/
def decodeFrom (blank : Int) : List Int → String → Except DecodeError String
  | [], acc => .ok acc
  | idx :: rest, acc =>
    if idx = blank then .ok acc
    else match lookup idx with
      | none => .error (.outOfRange idx)
      | some tok => decodeFrom blank rest (acc ++ tok)

/-- Modelled from the spec: decoding of one raw output record, starting from the
empty plate string. -/
def decode (blank : Int) (raw : List Int) : Except DecodeError String :=
  decodeFrom blank raw ""

/-- Modelled from the spec: step 4 of the Sequence Decoder.  A result is created
for the crop's location and its `license_` is extended by the decoded tokens. -/
def decodeCrop (blank : Int) (location : Rect) (raw : List Int) :
    Except DecodeError LicensePlateDetectionResult :=
  let r := LicensePlateDetectionResult.ctor location
  match decodeFrom blank raw r.license_ with
  | .ok s => .ok { r with license_ := s }
  | .error e => .error e

/-! ## Frame buffer, batch inference driver, result query surface -/

/-- The image type `cv::Mat`, reduced to what the required preprocessing inspects. -/
structure Image where
  channels : Nat
  rows : Nat
  cols : Nat
deriving DecidableEq

/-- Modelled from the spec: a buffered crop awaiting inference, tagged with its
origin rectangle. -/
structure PendingCrop where
  image : Image
  location : Rect
deriving DecidableEq

/-- Modelled from the spec: the two admissible policies for a decode error inside
`fetchResults` (fail the whole call, or substitute the empty string). -/
inductive DecodePolicy where
  | failFetch
  | sentinel
deriving DecidableEq

/-- Modelled from the spec: the external collaborators (loaded model and execution
runtime) at their interface.  `accepts` tells whether the runtime takes a batch,
`output` is the raw output (one record per crop) once inference has completed,
and `none` while it is in flight or after it was cancelled. -/
structure Runtime where
  channels : Nat
  maxBatch : Nat
  blank : Int
  policy : DecodePolicy
  accepts : List PendingCrop → Bool
  output : List PendingCrop → Option (List (List Int))

/-- Class `LicensePlateDetection`: the members `valid_model_` (here: whether a model
is bound) and `results_` of the header, with the frame buffer and the
outstanding-request flag of the inference base class. -/
structure LicensePlateDetection where
  valid_model_ : Bool
  buffer : List PendingCrop
  submitted : Bool
  results_ : List LicensePlateDetectionResult
deriving DecidableEq

/-- Modelled from the spec: `loadNetwork` binds the component to a model. -/
def loadNetwork (s : LicensePlateDetection) : LicensePlateDetection :=
  { s with valid_model_ := true }

/-- Modelled from the spec: `enqueue(image, location)` (declared in the header, defined
elsewhere).  Fails without effect when no model is loaded, inside a
submit/fetch cycle, when the image fails preprocessing (wrong channel count,
zero dimensions) or when the engine capacity is exhausted; otherwise appends
a pending crop. -/
def enqueue (rt : Runtime) (s : LicensePlateDetection) (image : Image) (location : Rect) :
    Bool × LicensePlateDetection :=
  if s.valid_model_ = false then (false, s)
  else if s.submitted = true then (false, s)
  else if image.channels ≠ rt.channels ∨ image.rows = 0 ∨ image.cols = 0 then (false, s)
  else if rt.maxBatch ≤ s.buffer.length then (false, s)
  else (true, { s with buffer := s.buffer ++ [{ image := image, location := location }] })

/-- Modelled from the spec: `submitRequest()` (declared in the header, defined elsewhere).
Requires a loaded model, a non-empty buffer and no outstanding request; fails
without effect when the runtime rejects the batch. -/
def submitRequest (rt : Runtime) (s : LicensePlateDetection) : Bool × LicensePlateDetection :=
  if s.valid_model_ = false then (false, s)
  else if s.buffer = [] then (false, s)
  else if s.submitted = true then (false, s)
  else if rt.accepts s.buffer = false then (false, s)
  else (true, { s with submitted := true })

/-- Modelled from the spec: the decoder invoked once per buffered crop, in enqueue
order, over the raw records of the output tensor. -/
def decodeAll (policy : DecodePolicy) (blank : Int) :
    List PendingCrop → List (List Int) → Option (List LicensePlateDetectionResult)
  | [], _ => some []
  | _ :: _, [] => none
  | c :: cs, raw :: raws =>
    match decodeCrop blank c.location raw with
    | .ok r => (decodeAll policy blank cs raws).map (fun rs => r :: rs)
    | .error _ =>
      match policy with
      | .failFetch => none
      | .sentinel =>
        (decodeAll policy blank cs raws).map
          (fun rs => LicensePlateDetectionResult.ctor c.location :: rs)

/-- Modelled from the spec: `fetchResults()` (declared in the header, defined elsewhere).
Requires an outstanding request whose inference has completed; fails without
effect on a missing or malformed output; otherwise replaces the result set by
the decoded results and clears the frame buffer. -/
def fetchResults (rt : Runtime) (s : LicensePlateDetection) : Bool × LicensePlateDetection :=
  if s.submitted = false then (false, s)
  else match rt.output s.buffer with
    | none => (false, s)
    | some raws =>
      if raws.length ≠ s.buffer.length then (false, s)
      else match decodeAll rt.policy rt.blank s.buffer raws with
        | none => (false, s)
        | some rs => (true, { s with buffer := [], submitted := false, results_ := rs })

/-- Modelled from the spec: `getResultsLength()`, the count of decoded results held. -/
def getResultsLength (s : LicensePlateDetection) : Int :=
  s.results_.length

/-- Modelled from the spec: `getLocationResult(idx)`, the result at a position, with an
explicit failure for a position outside the result set. -/
def getLocationResult (s : LicensePlateDetection) (idx : Int) :
    Option LicensePlateDetectionResult :=
  if 0 ≤ idx then s.results_[idx.toNat]? else none

/-- A run of `enqueue` calls, one per crop in list order, all of which succeed. -/
def enqueueAll (rt : Runtime) :
    LicensePlateDetection → List (Image × Rect) → Option LicensePlateDetection
  | s, [] => some s
  | s, (image, location) :: rest =>
    match enqueue rt s image location with
    | (true, s1) => enqueueAll rt s1 rest
    | (false, _) => none

/-! ## A concrete cycle: two crops, blank marker -1 -/

/-- A runtime that takes every batch and returns the raw records
[44, 45, 46, blank] and [10, blank], with blank marker -1. -/
def scenarioRuntime : Runtime where
  channels := 3
  maxBatch := 8
  blank := -1
  policy := DecodePolicy.failFetch
  accepts := fun _ => true
  output := fun _ => some [[44, 45, 46, -1], [10, -1]]

/-- The two crops of the scenario, at R1 = (0,0,10,20) and R2 = (5,5,8,15). -/
def scenarioCrops : List (Image × Rect) :=
  [(⟨3, 20, 10⟩, ⟨0, 0, 10, 20⟩), (⟨3, 15, 8⟩, ⟨5, 5, 8, 15⟩)]

/-- The component after `loadNetwork`, before any crop is enqueued. -/
def scenarioIdle : LicensePlateDetection :=
  loadNetwork ⟨false, [], false, []⟩

/-- The component after both crops are enqueued. -/
def scenarioBuffering : LicensePlateDetection :=
  ⟨true, [⟨⟨3, 20, 10⟩, ⟨0, 0, 10, 20⟩⟩, ⟨⟨3, 15, 8⟩, ⟨5, 5, 8, 15⟩⟩], false, []⟩

/-- The component after the batch is submitted. -/
def scenarioSubmitted : LicensePlateDetection :=
  ⟨true, [⟨⟨3, 20, 10⟩, ⟨0, 0, 10, 20⟩⟩, ⟨⟨3, 15, 8⟩, ⟨5, 5, 8, 15⟩⟩], true, []⟩

/-- The component after the results are fetched. -/
def scenarioFetched : LicensePlateDetection :=
  ⟨true, [], false, [⟨⟨0, 0, 10, 20⟩, "ABC"⟩, ⟨⟨5, 5, 8, 15⟩, "<Anhui>"⟩]⟩

/-- The index sequence 36, 44, 7 of the plate text "<Shanxi>A7". -/
def scenarioPlate : List (Fin licenses_.length) :=
  [⟨36, by decide⟩, ⟨44, by decide⟩, ⟨7, by decide⟩]

/-! ## The alphabet table -/

/-- The table holds seventy tokens. -/
theorem licenses_length : licenses_.length = 70 := by decide

set_option maxRecDepth 100000 in
/-- No token text occurs twice in the table. -/
theorem licenses_nodup : licenses_.Nodup := by decide

/-- An index is a position of the table exactly when it is below seventy. -/
theorem licenses_index_valid_iff (i : Nat) : (∃ t, licenses_[i]? = some t) ↔ i < 70 := by
  rw [← licenses_length]
  constructor
  · rintro ⟨t, ht⟩
    exact (List.getElem?_eq_some.mp ht).1
  · intro h
    exact ⟨licenses_[i], List.getElem?_eq_getElem h⟩

/-- C1 (as stated, refuted): the table does not have 68 tokens, and index 68 is
one of its valid indices (it holds the token "Y"). -/
theorem licenses_length_ne_68 :
    licenses_.length ≠ 68 ∧ licenses_[68]? = some "Y" ∧ licenses_[69]? = some "Z" := by
  decide

/-- C1 (amended): the alphabet table is a sequence of exactly 70 tokens, and its
valid indices are exactly 0 to 69. -/
theorem licenses_length_and_indices :
    licenses_.length = 70 ∧ ∀ i : Nat, (∃ t, licenses_[i]? = some t) ↔ i ≤ 69 := by
  refine ⟨licenses_length, fun i => ?_⟩
  rw [licenses_index_valid_iff]
  omega

set_option maxRecDepth 100000 in
/-- C5: every token of the table is non-empty and is either a one-character
string whose character is a decimal digit or an uppercase Latin letter, or a
label of more than one character. -/
theorem licenses_token_shape (t : String) (ht : t ∈ licenses_) :
    t ≠ "" ∧
      ((t.length = 1 ∧ ∀ c ∈ t.toList, c.isDigit = true ∨ c.isUpper = true) ∨
        1 < t.length) := by
  revert t
  decide

/-- Witness for C5 at the tokens "7", "Q" and "<Tibet>". -/
theorem licenses_token_shape_witness :
    ("7" ∈ licenses_ ∧ "7".length = 1 ∧ '7'.isDigit = true) ∧
    ("<Tibet>" ∈ licenses_ ∧ 1 < "<Tibet>".length) ∧
    ("<Tibet>" ≠ "" ∧
      (("<Tibet>".length = 1 ∧
          ∀ c ∈ "<Tibet>".toList, c.isDigit = true ∨ c.isUpper = true) ∨
        1 < "<Tibet>".length)) :=
  ⟨by decide, by decide, licenses_token_shape "<Tibet>" (by decide)⟩

set_option maxRecDepth 100000 in
/-- C8: the table is laid out as digits, then labels, then letters.  The token
at index i below ten is the decimal numeral of i; every token at an index from
10 to 43 is a label that starts with the character < and ends with the character >;
the token at index 44 + k, for k below 26, is the one-character string of the
k-th uppercase Latin letter; and the table ends there (it has 44 + 26 tokens). -/
theorem licenses_layout :
    (∀ i : Fin 10, licenses_[i.val]? = some (Nat.repr i.val)) ∧
    (∀ i : Fin 34, ∃ t, licenses_[10 + i.val]? = some t ∧ 1 < t.length ∧
        t.front = '<' ∧ t.back = '>') ∧
    (∀ k : Fin 26, licenses_[44 + k.val]? =
        some (String.singleton (Char.ofNat ('A'.toNat + k.val)))) ∧
    licenses_.length = 44 + 26 := by
  refine ⟨by decide, ?_, by decide, by decide⟩
  intro i
  have h : (licenses_[10 + i.val]?).any
      (fun t => decide (1 < t.length) && t.front == '<' && t.back == '>') = true := by
    revert i
    decide
  cases hq : licenses_[10 + i.val]? with
  | none => simp [hq] at h
  | some t =>
    simp only [hq, Option.any_some, Bool.and_eq_true, decide_eq_true_eq, beq_iff_eq] at h
    exact ⟨t, rfl, h.1.1, h.1.2, h.2⟩

/-- C10: the index-to-token lookup of the table is injective; tokens at two
different in-range indices differ. -/
theorem licenses_injective (i j : Nat) (hi : i < licenses_.length)
    (hj : j < licenses_.length) (hne : i ≠ j) : licenses_[i] ≠ licenses_[j] := by
  intro h
  exact hne ((List.Nodup.getElem_inj_iff licenses_nodup).mp h)

/-- Witness for C10 at the indices 33 ("<Shaanxi>") and 36 ("<Shanxi>"). -/
theorem licenses_injective_witness :
    licenses_[33]? = some "<Shaanxi>" ∧ licenses_[36]? = some "<Shanxi>" ∧
      licenses_[33] ≠ licenses_[36] :=
  ⟨by decide, by decide, licenses_injective 33 36 (by decide) (by decide) (by decide)⟩

/-! ## The alphabet lookup and the decoder -/

/-- An index in the range of the table resolves to the token at its position. -/
theorem lookup_of_inRange (idx : Int) (h0 : 0 ≤ idx) (h1 : idx < 70) :
    ∃ h : idx.toNat < licenses_.length, lookup idx = some licenses_[idx.toNat] := by
  have hlt : idx.toNat < licenses_.length := by
    rw [licenses_length]; omega
  exact ⟨hlt, by simp [lookup, h0, List.getElem?_eq_getElem hlt]⟩

/-- An index outside the range of the table does not resolve. -/
theorem lookup_of_not_inRange (idx : Int) (h : idx < 0 ∨ 70 ≤ idx) : lookup idx = none := by
  unfold lookup
  split
  · rw [List.getElem?_eq_none_iff, licenses_length]; omega
  · rfl

/-- One decoding step at a non-blank index that resolves to a token. -/
theorem decodeFrom_cons_some (blank idx : Int) (rest : List Int) (acc tok : String)
    (hb : idx ≠ blank) (ht : lookup idx = some tok) :
    decodeFrom blank (idx :: rest) acc = decodeFrom blank rest (acc ++ tok) := by
  simp [decodeFrom, hb, ht]

/-- Decoding stops at the blank marker, whatever follows it. -/
theorem decodeFrom_blank (blank : Int) (rest : List Int) (acc : String) :
    decodeFrom blank (blank :: rest) acc = .ok acc := by
  simp [decodeFrom]

/-- C3 (as stated, refuted): the raw class index 68 resolves to a token of the
table, the letter "Y", and decoding it yields that letter instead of a
decode error. -/
theorem lookup_68_resolves :
    lookup 68 = some "Y" ∧ decode (-1) [68, -1] = .ok "Y" :=
  ⟨by decide, rfl⟩

/-- C3 (amended): an index resolves to a token exactly when 0 <= idx < 70.  The
raw class index 70 and every negative raw index do not resolve, and the
decoder, meeting such an index that is not the blank marker, reports the
decode error for it instead of appending a character. -/
theorem lookup_resolves_iff (idx : Int) :
    ((∃ t, lookup idx = some t) ↔ (0 ≤ idx ∧ idx < 70)) ∧
    lookup 70 = none ∧
    ((idx < 0 ∨ 70 ≤ idx) → lookup idx = none ∧
      ∀ (blank : Int) (rest : List Int) (acc : String), idx ≠ blank →
        decodeFrom blank (idx :: rest) acc = .error (.outOfRange idx)) := by
  refine ⟨⟨?_, ?_⟩, lookup_of_not_inRange 70 (by omega), ?_⟩
  · rintro ⟨t, ht⟩
    by_contra hc
    rw [lookup_of_not_inRange idx (by omega)] at ht
    cases ht
  · rintro ⟨h0, h1⟩
    obtain ⟨_, h⟩ := lookup_of_inRange idx h0 h1
    exact ⟨_, h⟩
  · intro h
    have hn := lookup_of_not_inRange idx h
    refine ⟨hn, fun blank rest acc hb => ?_⟩
    simp [decodeFrom, hb, hn]

/-- Witness for C3 (amended) at the indices 70 and -2 with blank marker -1. -/
theorem lookup_resolves_iff_witness :
    (lookup 70 = none ∧ decodeFrom (-1) [70, 3] "" = .error (.outOfRange 70)) ∧
    (lookup (-2) = none ∧ decodeFrom (-1) [-2, 3] "7" = .error (.outOfRange (-2))) :=
  ⟨⟨((lookup_resolves_iff 70).2.2 (by decide)).1,
      ((lookup_resolves_iff 70).2.2 (by decide)).2 (-1) [3] "" (by decide)⟩,
    ⟨((lookup_resolves_iff (-2)).2.2 (by decide)).1,
      ((lookup_resolves_iff (-2)).2.2 (by decide)).2 (-1) [3] "7" (by decide)⟩⟩

/-- C2 (as stated, refuted): index 34 is the label "<Shandong>", not the letter
"A"; the raw sequence [34, 35, 36, blank] decodes to three province labels
and not to "ABC". -/
theorem decode_34_35_36_ne_ABC :
    lookup 34 = some "<Shandong>" ∧
    decode (-1) [34, 35, 36, -1] = .ok "<Shandong><Shanghai><Shanxi>" ∧
    decode (-1) [34, 35, 36, -1] ≠ .ok "ABC" := by
  have h : decode (-1) [34, 35, 36, -1] = .ok "<Shandong><Shanghai><Shanxi>" := rfl
  refine ⟨by decide, h, fun hc => ?_⟩
  rw [h] at hc
  exact absurd (Except.ok.inj hc) (by decide)

/-- C2 (amended): with a blank marker outside the table, the raw sequence
[44, 45, 46, blank, ...] decodes to "ABC" (index 44 is "A", 45 is "B",
46 is "C"), the raw sequence [34, 35, 36, blank, ...] decodes to
"<Shandong><Shanghai><Shanxi>", and [10, blank, ...] decodes to "<Anhui>". -/
theorem decode_scenario (blank : Int) (rest : List Int) (hb : blank < 0 ∨ 70 ≤ blank) :
    (lookup 44 = some "A" ∧ lookup 45 = some "B" ∧ lookup 46 = some "C") ∧
    decode blank (44 :: 45 :: 46 :: blank :: rest) = .ok "ABC" ∧
    decode blank (34 :: 35 :: 36 :: blank :: rest) = .ok "<Shandong><Shanghai><Shanxi>" ∧
    decode blank (10 :: blank :: rest) = .ok "<Anhui>" := by
  have h44 : lookup 44 = some "A" := by decide
  have h45 : lookup 45 = some "B" := by decide
  have h46 : lookup 46 = some "C" := by decide
  have h34 : lookup 34 = some "<Shandong>" := by decide
  have h35 : lookup 35 = some "<Shanghai>" := by decide
  have h36 : lookup 36 = some "<Shanxi>" := by decide
  have h10 : lookup 10 = some "<Anhui>" := by decide
  refine ⟨⟨h44, h45, h46⟩, ?_, ?_, ?_⟩
  · rw [decode, decodeFrom_cons_some blank 44 _ _ _ (by omega) h44,
      decodeFrom_cons_some blank 45 _ _ _ (by omega) h45,
      decodeFrom_cons_some blank 46 _ _ _ (by omega) h46, decodeFrom_blank]
    rfl
  · rw [decode, decodeFrom_cons_some blank 34 _ _ _ (by omega) h34,
      decodeFrom_cons_some blank 35 _ _ _ (by omega) h35,
      decodeFrom_cons_some blank 36 _ _ _ (by omega) h36, decodeFrom_blank]
    rfl
  · rw [decode, decodeFrom_cons_some blank 10 _ _ _ (by omega) h10, decodeFrom_blank]
    rfl

/-- Witness for C2 (amended) with blank marker -1 and trailing blanks. -/
theorem decode_scenario_witness :
    ((-1 : Int) < 0 ∨ 70 ≤ (-1 : Int)) ∧
    decode (-1) [44, 45, 46, -1, -1, -1] = .ok "ABC" ∧
    decode (-1) [34, 35, 36, -1, -1, -1] = .ok "<Shandong><Shanghai><Shanxi>" ∧
    decode (-1) [10, -1, -1, -1] = .ok "<Anhui>" :=
  ⟨by decide, (decode_scenario (-1) [-1, -1] (by decide)).2⟩

/-- C4: for every index i with 0 <= i < 68 the lookup of i succeeds, and
decoding the single-position sequence [i, blank, blank, ...] (the blank marker
being reserved, hence different from i) yields exactly the i-th token of the
table. -/
theorem alphabet_round_trip (blank i : Int) (rest : List Int)
    (h0 : 0 ≤ i) (h68 : i < 68) (hb : blank ≠ i) :
    ∃ t, licenses_[i.toNat]? = some t ∧ lookup i = some t ∧
      decode blank (i :: blank :: rest) = .ok t := by
  obtain ⟨hlt, hl⟩ := lookup_of_inRange i h0 (by omega)
  refine ⟨licenses_[i.toNat], List.getElem?_eq_getElem hlt, hl, ?_⟩
  rw [decode, decodeFrom_cons_some blank i _ _ _ (Ne.symm hb) hl, decodeFrom_blank]
  simp

/-- Witness for C4 at index 67 ("X") with blank marker -1. -/
theorem alphabet_round_trip_witness :
    ∃ t, licenses_[(67 : Int).toNat]? = some t ∧ lookup 67 = some t ∧
      decode (-1) (67 :: -1 :: [-1, -1]) = .ok t :=
  alphabet_round_trip (-1) 67 [-1, -1] (by decide) (by decide) (by decide)

/-- C7: an all-blank raw sequence decodes to the empty string and not to an
error; the result built for its crop is the freshly constructed one, to which
no token was appended, and its getLicense() is the empty string. -/
theorem all_blank_decodes_empty (blank : Int) (n : Nat) (location : Rect) :
    decode blank (List.replicate n blank) = .ok "" ∧
    decodeCrop blank location (List.replicate n blank) =
      .ok (LicensePlateDetectionResult.ctor location) ∧
    (LicensePlateDetectionResult.ctor location).getLicense = "" := by
  have h : ∀ acc : String, decodeFrom blank (List.replicate n blank) acc = .ok acc := by
    intro acc
    cases n with
    | zero => rfl
    | succ m => rw [List.replicate_succ, decodeFrom_blank]
  refine ⟨h "", ?_, rfl⟩
  simp only [decodeCrop, h]

/-! ## The inference cycle -/

/-- A successful `enqueue` appends exactly the given crop and changes nothing else. -/
theorem enqueue_ok (rt : Runtime) (s s1 : LicensePlateDetection) (image : Image)
    (location : Rect) (h : enqueue rt s image location = (true, s1)) :
    s1 = { s with buffer := s.buffer ++ [{ image := image, location := location }] } := by
  unfold enqueue at h
  split_ifs at h <;>
    simp only [Prod.mk.injEq, Bool.false_eq_true, false_and, true_and] at h
  exact h.symm

/-- After a run of successful `enqueue` calls the buffer holds the crops in call order. -/
theorem enqueueAll_buffer (rt : Runtime) (crops : List (Image × Rect)) :
    ∀ s s1 : LicensePlateDetection, enqueueAll rt s crops = some s1 →
      s1.buffer = s.buffer ++
        crops.map (fun c => ({ image := c.1, location := c.2 } : PendingCrop)) := by
  induction crops with
  | nil =>
    intro s s1 h
    simp only [enqueueAll, Option.some.injEq] at h
    simp [h]
  | cons c rest ih =>
    intro s s1 h
    obtain ⟨image, location⟩ := c
    simp only [enqueueAll] at h
    split at h
    · next s2 he =>
      have h2 := enqueue_ok rt s s2 image location he
      rw [ih s2 s1 h, h2]
      simp
    · cases h

/-- A successful `submitRequest` leaves the buffer as it is. -/
theorem submitRequest_ok (rt : Runtime) (s s1 : LicensePlateDetection)
    (h : submitRequest rt s = (true, s1)) : s1.buffer = s.buffer := by
  unfold submitRequest at h
  split_ifs at h <;>
    simp only [Prod.mk.injEq, Bool.false_eq_true, false_and, true_and] at h
  rw [← h]

/-- The result of decoding one crop carries the crop's location. -/
theorem decodeCrop_location (blank : Int) (location : Rect) (raw : List Int)
    (r : LicensePlateDetectionResult) (h : decodeCrop blank location raw = .ok r) :
    r.location = location := by
  simp only [decodeCrop] at h
  split at h
  · cases h; rfl
  · cases h

/-- Decoding a batch yields one result per crop, in order, each at its crop's location. -/
theorem decodeAll_locations (policy : DecodePolicy) (blank : Int) :
    ∀ (cs : List PendingCrop) (raws : List (List Int)) (rs : List LicensePlateDetectionResult),
      decodeAll policy blank cs raws = some rs →
        rs.map (fun r => r.location) = cs.map (fun c => c.location) := by
  intro cs
  induction cs with
  | nil =>
    intro raws rs h
    simp only [decodeAll, Option.some.injEq] at h
    simp [← h]
  | cons c cs ih =>
    intro raws rs h
    cases raws with
    | nil => simp [decodeAll] at h
    | cons raw raws =>
      simp only [decodeAll] at h
      split at h
      · next r hr =>
        simp only [Option.map_eq_some'] at h
        obtain ⟨rs1, h1, rfl⟩ := h
        simp [ih raws rs1 h1, decodeCrop_location blank c.location raw r hr]
      · split at h
        · cases h
        · simp only [Option.map_eq_some'] at h
          obtain ⟨rs1, h1, rfl⟩ := h
          simp [ih raws rs1 h1, LicensePlateDetectionResult.ctor]

/-- A successful `fetchResults` installs the decoded results of the buffered crops
and clears the buffer. -/
theorem fetchResults_ok (rt : Runtime) (s s1 : LicensePlateDetection)
    (h : fetchResults rt s = (true, s1)) :
    s1.buffer = [] ∧
      s1.results_.map (fun r => r.location) = s.buffer.map (fun c => c.location) := by
  unfold fetchResults at h
  split_ifs at h with hs
  · simp at h
  · split at h
    · simp at h
    · split_ifs at h
      · simp at h
      · split at h
        · simp at h
        · next rs hd =>
          simp only [Prod.mk.injEq, true_and] at h
          rw [← h]
          exact ⟨rfl, decodeAll_locations _ _ _ _ _ hd⟩

/-- C6: starting from an empty frame buffer, after N successful `enqueue` calls a
successful `submitRequest` and `fetchResults` leave exactly N results
(`getResultsLength` is N), in enqueue order: the k-th result, as returned by
`getLocationResult`, carries the location passed to the k-th `enqueue`.  The
frame buffer is empty afterwards. -/
theorem order_preservation (rt : Runtime) (s0 s1 s2 s3 : LicensePlateDetection)
    (crops : List (Image × Rect))
    (h0 : s0.buffer = [])
    (he : enqueueAll rt s0 crops = some s1)
    (hs : submitRequest rt s1 = (true, s2))
    (hf : fetchResults rt s2 = (true, s3)) :
    getResultsLength s3 = crops.length ∧
    s3.results_.map (fun r => r.location) = crops.map (fun c => c.2) ∧
    (∀ k : Fin crops.length, ∃ r, getLocationResult s3 k.val = some r ∧
        r.location = (crops.get k).2) ∧
    s3.buffer = [] := by
  have hb1 := enqueueAll_buffer rt crops s0 s1 he
  have hb2 := submitRequest_ok rt s1 s2 hs
  obtain ⟨hb3, hloc⟩ := fetchResults_ok rt s2 s3 hf
  rw [hb2, hb1, h0] at hloc
  simp only [List.nil_append, List.map_map] at hloc
  have hmap : s3.results_.map (fun r => r.location) = crops.map (fun c => c.2) := by
    rw [hloc]; rfl
  have hlen : s3.results_.length = crops.length := by
    simpa using congrArg List.length hmap
  refine ⟨by simp [getResultsLength, hlen], hmap, ?_, hb3⟩
  intro k
  have hk : k.val < s3.results_.length := by rw [hlen]; exact k.isLt
  refine ⟨s3.results_[k.val], ?_, ?_⟩
  · simp [getLocationResult, List.getElem?_eq_getElem hk]
  · have h1 : (s3.results_.map (fun r => r.location))[k.val]? =
        (crops.map (fun c => c.2))[k.val]? := by rw [hmap]
    simpa [List.getElem?_map, List.getElem?_eq_getElem hk,
      List.getElem?_eq_getElem k.isLt] using h1

/-- Witness for C6: the two-crop cycle runs through, and leaves two results in
enqueue order at the enqueued locations. -/
theorem order_preservation_witness :
    fetchResults scenarioRuntime scenarioSubmitted = (true, scenarioFetched) ∧
    getResultsLength scenarioFetched = scenarioCrops.length ∧
    scenarioFetched.results_.map (fun r => r.location) = scenarioCrops.map (fun c => c.2) ∧
    (∀ k : Fin scenarioCrops.length, ∃ r, getLocationResult scenarioFetched k.val = some r ∧
        r.location = (scenarioCrops.get k).2) ∧
    scenarioFetched.buffer = [] :=
  ⟨rfl, order_preservation scenarioRuntime scenarioIdle scenarioBuffering scenarioSubmitted
    scenarioFetched scenarioCrops rfl rfl rfl rfl⟩

/-! ## Unique decodability -/

set_option maxRecDepth 1000000 in
/-- The token set is prefix-free: a token that is a prefix of a token is that token. -/
theorem licenses_prefix_free :
    ∀ s ∈ licenses_, ∀ t ∈ licenses_, s.data <+: t.data → s = t := by
  decide

/-- No token of the table is the empty string. -/
theorem licenses_data_ne_nil : ∀ t ∈ licenses_, t.data ≠ [] := by
  decide

/-- Two tokens heading equal character streams are the same token. -/
theorem token_head_unique (i j : Fin licenses_.length) (a b : List Char)
    (h : (licenses_.get i).data ++ a = (licenses_.get j).data ++ b) : i = j ∧ a = b := by
  have hi : licenses_.get i ∈ licenses_ := List.get_mem _ _ _
  have hj : licenses_.get j ∈ licenses_ := List.get_mem _ _ _
  have p1 : (licenses_.get i).data <+: (licenses_.get j).data ++ b := h ▸ List.prefix_append _ _
  have p2 : (licenses_.get j).data <+: (licenses_.get j).data ++ b := List.prefix_append _ _
  have heq : licenses_.get i = licenses_.get j := by
    rcases List.prefix_or_prefix_of_prefix p1 p2 with hp | hp
    · exact licenses_prefix_free _ hi _ hj hp
    · exact (licenses_prefix_free _ hj _ hi hp).symm
  refine ⟨(List.Nodup.get_inj_iff licenses_nodup).mp heq, ?_⟩
  rw [heq] at h
  exact List.append_cancel_left h

/-- Unique decodability on character streams. -/
theorem flatten_tokens_injective (xs : List (Fin licenses_.length)) :
    ∀ ys : List (Fin licenses_.length),
      (xs.map (fun i => (licenses_.get i).data)).flatten =
        (ys.map (fun i => (licenses_.get i).data)).flatten → xs = ys := by
  induction xs with
  | nil =>
    intro ys h
    cases ys with
    | nil => rfl
    | cons y ys =>
      simp only [List.map_nil, List.flatten_nil, List.map_cons, List.flatten_cons] at h
      have hy := licenses_data_ne_nil _ (List.get_mem licenses_ y.val y.isLt)
      exact absurd (List.append_eq_nil.mp h.symm).1 hy
  | cons x xs ih =>
    intro ys h
    cases ys with
    | nil =>
      simp only [List.map_nil, List.flatten_nil, List.map_cons, List.flatten_cons] at h
      have hx := licenses_data_ne_nil _ (List.get_mem licenses_ x.val x.isLt)
      exact absurd (List.append_eq_nil.mp h).1 hx
    | cons y ys =>
      simp only [List.map_cons, List.flatten_cons] at h
      obtain ⟨hxy, hrest⟩ := token_head_unique x y _ _ h
      rw [hxy, ih ys hrest]

/-- C9: decoding over the table is uniquely decodable.  For two sequences of
in-range indices, if the concatenations of their tokens, without separators,
are equal strings, then the index sequences are equal. -/
theorem unique_decodability (xs ys : List (Fin licenses_.length))
    (h : String.join (xs.map licenses_.get) = String.join (ys.map licenses_.get)) :
    xs = ys := by
  apply flatten_tokens_injective
  have hd := congrArg String.data h
  simpa [String.data_join, List.map_map, Function.comp_def] using hd

/-- Witness for C9 at the plate text "<Shanxi>A7". -/
theorem unique_decodability_witness :
    String.join (scenarioPlate.map licenses_.get) = "<Shanxi>A7" ∧
    scenarioPlate = [⟨36, by decide⟩, ⟨44, by decide⟩, ⟨7, by decide⟩] :=
  ⟨by decide, unique_decodability scenarioPlate
    [⟨36, by decide⟩, ⟨44, by decide⟩, ⟨7, by decide⟩] rfl⟩

/-- The decoder, run on in-range indices with a blank marker outside the table,
produces the concatenation of the tokens. -/
theorem decodeFrom_inRange (blank : Int) (hb : blank < 0 ∨ 70 ≤ blank)
    (xs : List (Fin licenses_.length)) :
    ∀ acc : String, decodeFrom blank (xs.map (fun i => (i.val : Int))) acc =
      .ok (acc ++ String.join (xs.map licenses_.get)) := by
  induction xs with
  | nil =>
    intro acc
    simp only [List.map_nil, decodeFrom]
    congr 1
    apply String.ext
    simp [String.data_join]
  | cons x xs ih =>
    intro acc
    have hx : (x.val : Int) < 70 := by
      have h70 : x.val < 70 := lt_of_lt_of_eq x.isLt licenses_length
      omega
    obtain ⟨_, hl⟩ := lookup_of_inRange (x.val : Int) (by omega) hx
    rw [List.map_cons, decodeFrom_cons_some blank _ _ _ _ (by omega) hl, ih]
    congr 1
    apply String.ext
    simp [String.data_join, String.data_append]

end dynamic_vino_lib
